import Mathlib

/-!
Verification of the P2MSH (Pay-to-MultiSig-Hash) script template of the
bsv-blockchain/ts-templates repository, file
src/template/multisig/MultiSigPubkeyHash.ts, against its specification.

Shallow embedding conventions:
* a byte string is a List Nat (each element intended < 256);
* a base58 string is represented by its sequence of digit values (0..57),
  the character alphabet being a fixed bijection;
* a public key is represented by its DER byte encoding (33 bytes when
  compressed);
* the HASH160 and HASH256 primitives come from the external @bsv/sdk
  cryptography library and are taken as function parameters;
* fallible code returns Except String, carrying the thrown message.

The helper functions of the external @bsv/sdk library that the template
calls (script chunk writers, varint reader and writer, base58check codec)
are embedded from the behaviour of that library, since the template code
is inseparable from them.
-/

/-- ScriptChunk of @bsv/sdk: one opcode, with optional push data. -/
structure ScriptChunk where
  op : Nat
  data : Option (List Nat)
deriving DecidableEq, Repr

/-- Script of @bsv/sdk is a sequence of chunks. -/
abbrev Script := List ScriptChunk

/-- Script.writeOpCode of @bsv/sdk: appends a dataless chunk. -/
def writeOpCode (s : Script) (op : Nat) : Script := s ++ [⟨op, none⟩]

/-- Push opcode chosen by Script.writeBin of @bsv/sdk for a given data
length: the length itself below 76, OP_0 for empty data, else
OP_PUSHDATA1/2/4. -/
def pushOp (len : Nat) : Nat :=
  if 0 < len ∧ len < 76 then len
  else if len = 0 then 0
  else if len < 256 then 76
  else if len < 65536 then 77
  else 78

/-- Script.writeBin of @bsv/sdk: appends one push chunk holding the data. -/
def writeBin (s : Script) (bin : List Nat) : Script :=
  s ++ [⟨pushOp bin.length, some bin⟩]

/-- Little-endian base-B digits of a natural number, most significant digit
last, with no trailing zero digit. Structural recursion on a fuel argument
so that the kernel can evaluate it; natDigits instantiates the fuel. -/
def natDigitsFuel (B : Nat) : Nat → Nat → List Nat
  | 0, _ => []
  | _ + 1, 0 => []
  | fuel + 1, n + 1 => ((n + 1) % B) :: natDigitsFuel B fuel ((n + 1) / B)

/-- Minimal little-endian base-B digit list of a natural number. -/
def natDigits (B n : Nat) : List Nat := natDigitsFuel B n n

/-- BigNumber.toSm with little endianness, from @bsv/sdk: minimal
sign-magnitude byte encoding, least significant byte first; a leading
0x00 pad byte (0x80 for negatives) keeps the top bit free for the sign. -/
def toSmLittle (n : Int) : List Nat :=
  let mag := natDigits 256 n.natAbs
  match mag.getLast? with
  | none => []
  | some top =>
    if n < 0 then
      if 128 ≤ top then mag ++ [128] else mag.dropLast ++ [top + 128]
    else
      if 128 ≤ top then mag ++ [0] else mag

/-- Script.writeNumber of @bsv/sdk: OP_0 for zero, OP_1NEGATE for minus
one, the minimal single-byte opcode OP_1..OP_16 for 1..16, and otherwise a
push of the sign-magnitude little-endian bytes. -/
def writeNumber (s : Script) (n : Int) : Script :=
  if n = 0 then writeOpCode s 0
  else if n = -1 then writeOpCode s 79
  else if 1 ≤ n ∧ n ≤ 16 then writeOpCode s (n + 80).toNat
  else writeBin s (toSmLittle n)

/-- Value of a little-endian digit list in base B (same as Nat.ofDigits,
restated structurally for direct kernel evaluation). -/
def leVal (B : Nat) : List Nat → Nat
  | [] => 0
  | d :: t => d + B * leVal B t

/-- Value of a big-endian digit list in base B, accumulated exactly as the
conversion loops of the @bsv/sdk base58 codec do. -/
def beVal (B : Nat) (l : List Nat) : Nat := l.foldl (fun a d => a * B + d) 0

/-- Count of leading zero elements of a list; the base58 codec maps each
leading zero byte to a leading unit digit and back. -/
def clz : List Nat → Nat
  | [] => 0
  | b :: t => if b = 0 then clz t + 1 else 0

/-- Utils.toBase58 of @bsv/sdk on a byte list: one zero digit per leading
zero byte, then the big-endian base-58 digits of the value. -/
def toBase58 (bin : List Nat) : List Nat :=
  List.replicate (clz bin) 0 ++ (natDigits 58 (beVal 256 bin)).reverse

/-- Utils.fromBase58 of @bsv/sdk: one zero byte per leading zero digit,
then the big-endian base-256 bytes of the value. -/
def fromBase58 (digits : List Nat) : List Nat :=
  List.replicate (clz digits) 0 ++ (natDigits 256 (beVal 58 digits)).reverse

/-- Utils.toBase58Check of @bsv/sdk: appends the first four bytes of the
double-SHA256 of prefix plus payload as a checksum and base58-encodes the
whole. The hash256 primitive is a parameter. -/
def toBase58Check (hash256 : List Nat → List Nat)
    (data : List Nat) (pre : List Nat) : List Nat :=
  toBase58 (pre ++ data ++ (hash256 (pre ++ data)).take 4)

/-- Utils.fromBase58Check of @bsv/sdk with prefix length one: decodes,
splits prefix, payload and checksum, and verifies the checksum. -/
def fromBase58Check (hash256 : List Nat → List Nat)
    (s : List Nat) : Except String (List Nat × List Nat) :=
  let bin := fromBase58 s
  let pre := bin.take 1
  let data := (bin.take (bin.length - 4)).drop 1
  let checksum := (hash256 (pre ++ data)).take 4
  let expected := bin.drop (bin.length - 4)
  if checksum = expected then Except.ok (pre, data) else Except.error "Invalid checksum"

/-- Utils.Writer.writeVarIntNum of @bsv/sdk. -/
def leBytesFixed : Nat → Nat → List Nat
  | 0, _ => []
  | k + 1, n => n % 256 :: leBytesFixed k (n / 256)

/-- Bitcoin varint encoding written by Utils.Writer.writeVarIntNum. -/
def writeVarIntNum (n : Nat) : List Nat :=
  if n < 253 then [n]
  else if n < 65536 then 253 :: leBytesFixed 2 n
  else if n < 4294967296 then 254 :: leBytesFixed 4 n
  else 255 :: leBytesFixed 8 n

/-- Utils.Reader.readVarIntNum of @bsv/sdk, on the remaining byte list;
returns the value and the rest of the buffer. Reading from an empty
buffer, which yields NaN comparisons in the library, is not exercised by
any claim and is modelled as value zero. -/
def readVarIntNum (l : List Nat) : Nat × List Nat :=
  match l with
  | [] => (0, [])
  | first :: rest =>
    if first = 253 then (leVal 256 (rest.take 2), rest.drop 2)
    else if first = 254 then (leVal 256 (rest.take 4), rest.drop 4)
    else if first = 255 then (leVal 256 (rest.take 8), rest.drop 8)
    else (first, rest)

/-- numberFromScriptChunk of MultiSigPubkeyHash.ts: a dataless chunk is
decoded as 1 + op - OP_1; a data chunk is read with readInt64LEBn, which
takes up to eight bytes little-endian (the Reader slices, so a shorter
buffer is read whole). -/
def numberFromScriptChunk (chunk : ScriptChunk) : Int :=
  match chunk.data with
  | none => 1 + (chunk.op : Int) - 81
  | some d => (leVal 256 (d.take 8) : Int)

/-- concatPubkeys of MultiSigPubkeyHash.ts: concatenates the DER byte
encodings of the keys in list order. -/
def concatPubkeys (pubkeys : List (List Nat)) : List Nat :=
  pubkeys.foldl (fun a b => a ++ b) []

/-- MultiSigPubkeyHash.address: validates the threshold against the key
count, requires at least two keys, then base58check-encodes
hash160 of the concatenated keys followed by the varints of threshold and
total under version byte 0x98. The error text interpolates the threshold
(with the falsy threshold 0 replaced by 2). -/
def MultiSigPubkeyHash.address (hash160 hash256 : List Nat → List Nat)
    (pubkeys : List (List Nat)) (threshold : Int) : Except String (List Nat) :=
  if threshold < 1 ∨ threshold > (pubkeys.length : Int) then
    Except.error "threshold must be between 1 and the number of pubkeys"
  else if pubkeys.length < 2 ∨ (pubkeys.length : Int) < threshold then
    Except.error ("at least " ++ toString (if threshold = 0 then 2 else threshold) ++ " pubkeys are required")
  else
    let hash := hash160 (concatPubkeys pubkeys)
    let data := hash ++ writeVarIntNum threshold.toNat ++ writeVarIntNum pubkeys.length
    Except.ok (toBase58Check hash256 data [152])

/-- MultiSigPubkeyHash.thresholdAndTotalFromAddress: base58check-decodes,
requires prefix byte 0x98, then reads the 20-byte hash and the two varints
for threshold and total. -/
def MultiSigPubkeyHash.thresholdAndTotalFromAddress (hash256 : List Nat → List Nat)
    (address : List Nat) : Except String (List Nat × Nat × Nat) :=
  match fromBase58Check hash256 address with
  | Except.error e => Except.error e
  | Except.ok h =>
    if h.1.head? ≠ some 152 then
      Except.error "only P2MSH is supported, set your prefix byte to 0x98"
    else
      let hash := h.2.take 20
      let r1 := h.2.drop 20
      let (threshold, r2) := readVarIntNum r1
      let (total, _) := readVarIntNum r2
      Except.ok (hash, threshold, total)

/-- Script construction part of MultiSigPubkeyHash.lock, after the
validations: total minus one OP_CAT, then OP_DUP OP_HASH160 push(hash)
OP_EQUALVERIFY, push number threshold, OP_SWAP, then total minus one
repetitions of push number 33 and OP_SPLIT, then push number total and
OP_CHECKMULTISIG. -/
def lockChunks (hash : List Nat) (threshold total : Nat) : Script :=
  let s := (List.range (total - 1)).foldl (fun s _ => writeOpCode s 126) []
  let s := writeOpCode s 118
  let s := writeOpCode s 169
  let s := writeBin s hash
  let s := writeOpCode s 136
  let s := writeNumber s (threshold : Int)
  let s := writeOpCode s 124
  let s := (List.range (total - 1)).foldl
    (fun s _ => writeOpCode (writeNumber s (33 : Int)) 127) s
  let s := writeNumber s (total : Int)
  writeOpCode s 174

/-- MultiSigPubkeyHash.lock: either decodes an address (a nonempty, hence
truthy, string) or hashes an explicit key list requiring at least two
keys; then validates the threshold range and the participant bound before
building the locking script. -/
def MultiSigPubkeyHash.lock (hash160 hash256 : List Nat → List Nat)
    (address : Option (List Nat)) (pubkeys : Option (List (List Nat)))
    (threshold : Int) : Except String Script :=
  let total0 : Nat := (pubkeys.map List.length).getD 0
  let fromKeys : Except String (List Nat × Nat × Int) :=
    match pubkeys with
    | none => Except.error "at least 2 pubkeys are required"
    | some pks =>
      if total0 < 2 then Except.error "at least 2 pubkeys are required"
      else Except.ok (hash160 (concatPubkeys pks), total0, threshold)
  let ctx : Except String (List Nat × Nat × Int) :=
    match address with
    | some a =>
      if a.length ≠ 0 then
        (MultiSigPubkeyHash.thresholdAndTotalFromAddress hash256 a).map
          (fun r => (r.1, r.2.2, (r.2.1 : Int)))
      else fromKeys
    | none => fromKeys
  match ctx with
  | Except.error e => Except.error e
  | Except.ok (hash, total, thr) =>
    if thr = 0 ∨ thr < 1 ∨ thr > (total : Int) then
      Except.error "threshold must be between 1 and the number of pubkeys"
    else if total > 10 then
      Except.error "total must be less than or equal to 10"
    else
      Except.ok (lockChunks hash thr.toNat total)

/-- Commitment decoding performed by the length estimator of
MultiSigPubkeyHash.ts: the chunk immediately after the first
OP_EQUALVERIFY is the threshold and the chunk before the trailing
OP_CHECKMULTISIG is the total; a missing OP_EQUALVERIFY maps, through the
indexOf result minus one of the source, to position zero. -/
def decodeCommitment (s : Script) : Int × Int :=
  let totalChunk := s.getD (s.length - 2) ⟨0, none⟩
  let i := s.findIdx (fun c => c.op == 136)
  let thresholdPos := if i = s.length then 0 else i + 1
  let thresholdChunk := s.getD thresholdPos ⟨0, none⟩
  (numberFromScriptChunk thresholdChunk, numberFromScriptChunk totalChunk)

/-- Transaction output as consumed by the template: optional satoshi value
and a locking script. -/
structure TxOutput where
  satoshis : Option Nat
  lockingScript : Script
deriving DecidableEq

/-- Source transaction as consumed by the template: its hex id and its
outputs. -/
structure SourceTx where
  id : String
  outputs : List TxOutput
deriving DecidableEq

/-- Transaction input as consumed by the template. -/
structure TxInput where
  sourceTXID : Option String
  sourceTransaction : Option SourceTx
  sourceOutputIndex : Nat
  sequence : Option Nat
deriving DecidableEq

/-- Transaction as consumed by the template. -/
structure Transaction where
  version : Nat
  inputs : List TxInput
  outputs : List TxOutput
  lockTime : Nat
deriving DecidableEq

/-- Insertion by Array.prototype.splice with deletion count zero at a
nonnegative start position. -/
def spliceInsert (l : List α) (i : Nat) (a : α) : List α :=
  l.take i ++ a :: l.drop i

/-- The sign closure returned by MultiSigPubkeyHash.unlock. The signer
pubkeys of the custom instructions are given by their DER bytes. The
preimage construction, its double-SHA256 and the wallet signature are
external cryptography, abstracted by the sigForScript parameter holding
the checksig-format signature bytes this call produces; everything else
follows the source statement by statement. Undefined property accesses,
which throw TypeError in JavaScript, are modelled as errors; splice with a
negative start (more instruction pubkeys than chunks, violating the
working-script invariant) is not exercised by any claim and is modelled
with truncated subtraction. -/
def MultiSigPubkeyHash.unlockSign
    (instrPubkeys : List (List Nat))
    (workingUnlockingScript : Option Script)
    (sourceSatoshis : Option Nat)
    (lockingScriptParam : Option Script)
    (sigForScript : List Nat)
    (tx : Transaction) (inputIndex : Nat) : Except String Script :=
  let wus : Script :=
    match workingUnlockingScript with
    | some w => w
    | none => instrPubkeys.foldl (fun s pk => writeBin s pk) (writeOpCode [] 0)
  match tx.inputs[inputIndex]? with
  | none => Except.error "TypeError: input is undefined"
  | some input =>
    let sourceTXID : Option String :=
      match input.sourceTXID with
      | some t => if t ≠ "" then some t else input.sourceTransaction.map (fun st => st.id)
      | none => input.sourceTransaction.map (fun st => st.id)
    if sourceTXID.getD "" = "" then
      Except.error "The input sourceTXID or sourceTransaction is required for transaction signing."
    else
      let fallbackSats : Except String (Option Nat) :=
        match input.sourceTransaction with
        | none => Except.ok none
        | some st =>
          match st.outputs[input.sourceOutputIndex]? with
          | none => Except.error "TypeError: output is undefined"
          | some o => Except.ok o.satoshis
      let satsE : Except String (Option Nat) :=
        match sourceSatoshis with
        | some v => if v ≠ 0 then Except.ok (some v) else fallbackSats
        | none => fallbackSats
      match satsE with
      | Except.error e => Except.error e
      | Except.ok sats =>
        if sats.getD 0 = 0 then
          Except.error "The sourceSatoshis or input sourceTransaction is required for transaction signing."
        else
          let fallbackLS : Except String (Option Script) :=
            match input.sourceTransaction with
            | none => Except.ok none
            | some st =>
              match st.outputs[input.sourceOutputIndex]? with
              | none => Except.error "TypeError: output is undefined"
              | some o => Except.ok (some o.lockingScript)
          let lsE : Except String (Option Script) :=
            match lockingScriptParam with
            | some l => Except.ok (some l)
            | none => fallbackLS
          match lsE with
          | Except.error e => Except.error e
          | Except.ok ls =>
            match ls with
            | none =>
              Except.error "The lockingScript or input sourceTransaction is required for transaction signing."
            | some _ =>
              let wus2 := writeBin wus sigForScript
              let chunkforSig := wus2.getLast?.getD ⟨0, none⟩
              let chunks := wus2.dropLast
              Except.ok (spliceInsert chunks (chunks.length - instrPubkeys.length) chunkforSig)

/-- The estimateLength closure returned by MultiSigPubkeyHash.unlock. The
lockingScriptParam argument of unlock is in scope but shadowed by the
locking script of the source transaction output, exactly as in the source;
when the source transaction is absent the constant guess 1000 is returned.
Undefined property accesses are modelled as errors. -/
def MultiSigPubkeyHash.unlockEstimateLength
    (lockingScriptParam : Option Script)
    (tx : Transaction) (inputIndex : Nat) : Except String Int :=
  match tx.inputs[inputIndex]? with
  | none => Except.error "TypeError: input is undefined"
  | some input =>
    match input.sourceTransaction with
    | none => Except.ok 1000
    | some st =>
      match st.outputs[input.sourceOutputIndex]? with
      | none => Except.error "TypeError: output is undefined"
      | some o =>
        let ls := o.lockingScript
        let totalChunk := ls.getD (ls.length - 2) ⟨0, none⟩
        let numberOfPubkeys := numberFromScriptChunk totalChunk
        let i := ls.findIdx (fun c => c.op == 136)
        let thresholdPos := if i = ls.length then 0 else i + 1
        let thresholdChunk := ls.getD thresholdPos ⟨0, none⟩
        let numberOfSignatures := numberFromScriptChunk thresholdChunk
        Except.ok (1 + numberOfSignatures * 74 + numberOfPubkeys * 34)

/-! ## Digit conversion lemmas -/

theorem natDigitsFuel_eq (B : Nat) (hB : 2 ≤ B) :
    ∀ fuel n, n ≤ fuel → natDigitsFuel B fuel n = Nat.digits B n
  | 0, 0, _ => by simp [natDigitsFuel]
  | 0, _ + 1, h => absurd h (by omega)
  | _ + 1, 0, _ => by simp [natDigitsFuel]
  | fuel + 1, n + 1, h => by
    have hdiv : (n + 1) / B < n + 1 := Nat.div_lt_self (Nat.succ_pos n) (by omega)
    rw [natDigitsFuel, natDigitsFuel_eq B hB fuel ((n + 1) / B) (by omega),
      Nat.digits_def' (by omega : 1 < B) (Nat.succ_pos n)]

theorem natDigits_eq (B n : Nat) (hB : 2 ≤ B) : natDigits B n = Nat.digits B n :=
  natDigitsFuel_eq B hB n n le_rfl

theorem leVal_eq_ofDigits (B : Nat) : ∀ l : List Nat, leVal B l = Nat.ofDigits B l
  | [] => by simp [leVal, Nat.ofDigits_nil]
  | d :: t => by simp [leVal, Nat.ofDigits_cons, leVal_eq_ofDigits B t]

theorem leVal_natDigits (B n : Nat) (hB : 2 ≤ B) : leVal B (natDigits B n) = n := by
  rw [leVal_eq_ofDigits, natDigits_eq B n hB, Nat.ofDigits_digits]

theorem natDigits_leVal (B : Nat) (l : List Nat) (hB : 2 ≤ B)
    (h1 : ∀ d ∈ l, d < B) (h2 : ∀ h : l ≠ [], l.getLast h ≠ 0) :
    natDigits B (leVal B l) = l := by
  rw [leVal_eq_ofDigits, natDigits_eq _ _ hB, Nat.digits_ofDigits B (by omega) l h1 h2]

theorem natDigits_lt (B n : Nat) (hB : 2 ≤ B) : ∀ d ∈ natDigits B n, d < B := by
  rw [natDigits_eq B n hB]
  intro d hd
  exact Nat.digits_lt_base (by omega) hd

theorem natDigits_getLast?_ne_zero (B n : Nat) (hB : 2 ≤ B) (hn : n ≠ 0) :
    ∀ d, (natDigits B n).getLast? = some d → d ≠ 0 := by
  rw [natDigits_eq B n hB]
  intro d hd
  have hne : Nat.digits B n ≠ [] := Nat.digits_ne_nil_iff_ne_zero.mpr hn
  rw [List.getLast?_eq_getLast _ hne] at hd
  have := Nat.getLast_digit_ne_zero B hn
  simpa [← Option.some_inj.mp hd] using this

theorem natDigits_length_le (B n k : Nat) (hB : 2 ≤ B) (h : n < B ^ k) :
    (natDigits B n).length ≤ k := by
  rcases Nat.eq_zero_or_pos n with rfl | hn
  · simp [natDigits, natDigitsFuel]
  · rw [natDigits_eq B n hB, Nat.digits_len B n (by omega) (by omega)]
    have := (Nat.lt_pow_iff_log_lt (by omega : 1 < B) (by omega : n ≠ 0)).mp h
    omega

theorem natDigits_zero (B : Nat) : natDigits B 0 = [] := rfl

theorem leVal_append (B : Nat) : ∀ l m : List Nat,
    leVal B (l ++ m) = leVal B l + B ^ l.length * leVal B m
  | [], m => by simp [leVal]
  | d :: t, m => by
    simp [leVal, leVal_append B t m, Nat.pow_succ]
    ring

/-! ## Big-endian accumulation -/

theorem beVal_foldl_aux (B : Nat) : ∀ (l : List Nat) (a : Nat),
    List.foldl (fun a d => a * B + d) a l = a * B ^ l.length + Nat.ofDigits B l.reverse
  | [], a => by simp [Nat.ofDigits_nil]
  | d :: t, a => by
    simp only [List.foldl_cons, beVal_foldl_aux B t (a * B + d), List.reverse_cons,
      Nat.ofDigits_append, Nat.ofDigits_singleton, List.length_reverse, List.length_cons]
    ring

theorem beVal_eq_ofDigits (B : Nat) (l : List Nat) :
    beVal B l = Nat.ofDigits B l.reverse := by
  simpa [beVal] using beVal_foldl_aux B l 0

theorem beVal_ge_init (B : Nat) (hB : 1 ≤ B) : ∀ (l : List Nat) (a : Nat),
    a ≤ List.foldl (fun a d => a * B + d) a l
  | [], a => le_rfl
  | d :: t, a => by
    have h1 : a ≤ a * B + d := by
      have := Nat.le_mul_of_pos_right a (by omega : 0 < B)
      omega
    exact h1.trans (beVal_ge_init B hB t (a * B + d))

theorem beVal_pos (B : Nat) (l : List Nat) (d : Nat) (hB : 1 ≤ B)
    (h : l.head? = some d) (hd : d ≠ 0) : 0 < beVal B l := by
  cases l with
  | nil => simp at h
  | cons x t =>
    have hx : x = d := by simpa using h
    have : x ≤ List.foldl (fun a d => a * B + d) x t := beVal_ge_init B hB t x
    simp only [beVal, List.foldl_cons, Nat.zero_mul, Nat.zero_add]
    omega

/-! ## Leading zero bookkeeping -/

theorem clz_replicate_append (r : List Nat) : ∀ k, clz (List.replicate k 0 ++ r) = k + clz r
  | 0 => by simp
  | k + 1 => by
    simp [List.replicate_succ, clz, clz_replicate_append r k]
    omega

theorem clz_head_ne_zero (l : List Nat) (d : Nat) (h : l.head? = some d) (hd : d ≠ 0) :
    clz l = 0 := by
  cases l with
  | nil => simp at h
  | cons x t =>
    have hx : x = d := by simpa using h
    simp [clz, hx, hd]

theorem clz_decomp : ∀ l : List Nat, List.replicate (clz l) 0 ++ l.drop (clz l) = l
  | [] => rfl
  | b :: t => by
    by_cases hb : b = 0
    · subst hb
      simp [clz, List.replicate_succ, clz_decomp t]
    · simp [clz, hb]

theorem head?_drop_clz : ∀ (l : List Nat) (d : Nat),
    (l.drop (clz l)).head? = some d → d ≠ 0
  | [], d => by simp [clz]
  | b :: t, d => by
    by_cases hb : b = 0
    · subst hb
      simp only [clz, if_pos rfl, List.drop_succ_cons]
      exact head?_drop_clz t d
    · simp [clz, hb]
      omega

theorem beVal_replicate_zero (B : Nat) (r : List Nat) :
    ∀ k, beVal B (List.replicate k 0 ++ r) = beVal B r
  | 0 => by simp
  | k + 1 => by
    simpa [beVal, List.replicate_succ] using beVal_replicate_zero B r k

/-! ## Base58 round trip -/

theorem fromBase58_toBase58 (bin : List Nat) (hb : ∀ b ∈ bin, b < 256) :
    fromBase58 (toBase58 bin) = bin := by
  have hsplit : List.replicate (clz bin) 0 ++ bin.drop (clz bin) = bin := clz_decomp bin
  have hval : beVal 256 bin = beVal 256 (bin.drop (clz bin)) := by
    conv_lhs => rw [← hsplit]
    exact beVal_replicate_zero 256 _ (clz bin)
  by_cases hn : beVal 256 bin = 0
  · have hrest_nil : bin.drop (clz bin) = [] := by
      cases hcons : bin.drop (clz bin) with
      | nil => rfl
      | cons d t =>
        exfalso
        have hd : d ≠ 0 := head?_drop_clz bin d (by rw [hcons]; rfl)
        have hpos := beVal_pos 256 (bin.drop (clz bin)) d (by omega) (by rw [hcons]; rfl) hd
        omega
    simp only [toBase58, fromBase58]
    rw [hn, natDigits_zero, List.reverse_nil, List.append_nil]
    have h1 : clz (List.replicate (clz bin) 0) = clz bin := by
      simpa using clz_replicate_append [] (clz bin)
    have h2 : beVal 58 (List.replicate (clz bin) 0) = 0 := by
      simpa using beVal_replicate_zero 58 [] (clz bin)
    rw [h1, h2, natDigits_zero, List.reverse_nil, List.append_nil]
    conv_rhs => rw [← hsplit, hrest_nil]
    rw [List.append_nil]
  · obtain ⟨d, t, hcons⟩ : ∃ d t, bin.drop (clz bin) = d :: t := by
      cases hcons : bin.drop (clz bin) with
      | nil =>
        exfalso
        rw [hval, hcons] at hn
        simp [beVal] at hn
      | cons d t => exact ⟨d, t, rfl⟩
    have hd : d ≠ 0 := head?_drop_clz bin d (by rw [hcons]; rfl)
    have hDne : natDigits 58 (beVal 256 bin) ≠ [] := by
      intro hnil
      have h5 := leVal_natDigits 58 (beVal 256 bin) (by omega)
      rw [hnil] at h5
      simp [leVal] at h5
      exact hn h5.symm
    obtain ⟨g, hg⟩ : ∃ g, (natDigits 58 (beVal 256 bin)).getLast? = some g :=
      ⟨_, List.getLast?_eq_getLast _ hDne⟩
    have hgne : g ≠ 0 := natDigits_getLast?_ne_zero 58 _ (by omega) hn g hg
    simp only [toBase58, fromBase58]
    have h3 : clz (natDigits 58 (beVal 256 bin)).reverse = 0 :=
      clz_head_ne_zero _ g (by rw [List.head?_reverse]; exact hg) hgne
    have hclz : clz (List.replicate (clz bin) 0 ++
        (natDigits 58 (beVal 256 bin)).reverse) = clz bin := by
      rw [clz_replicate_append, h3]
      omega
    have hbe : beVal 58 (List.replicate (clz bin) 0 ++
        (natDigits 58 (beVal 256 bin)).reverse) = beVal 256 bin := by
      rw [beVal_replicate_zero, beVal_eq_ofDigits, List.reverse_reverse,
        ← leVal_eq_ofDigits, leVal_natDigits 58 _ (by omega)]
    rw [hclz, hbe]
    have hrd : natDigits 256 (beVal 256 bin) = (bin.drop (clz bin)).reverse := by
      have hv2 : beVal 256 bin = leVal 256 (bin.drop (clz bin)).reverse := by
        rw [hval, beVal_eq_ofDigits, leVal_eq_ofDigits]
      rw [hv2]
      apply natDigits_leVal 256 _ (by omega)
      · intro x hx
        exact hb x (List.mem_of_mem_drop (List.mem_reverse.mp hx))
      · intro h
        have hlast : (bin.drop (clz bin)).reverse.getLast? = some d := by
          rw [List.getLast?_reverse, hcons]
          rfl
        rw [List.getLast?_eq_getLast _ h] at hlast
        intro hzero
        rw [hzero] at hlast
        exact hd (Option.some_inj.mp hlast).symm
    rw [hrd, List.reverse_reverse, hsplit]

/-! ## Base58check round trip -/

theorem fromBase58Check_toBase58Check (hash256 : List Nat → List Nat)
    (data pre : List Nat)
    (hpre : pre.length = 1)
    (hck : 4 ≤ (hash256 (pre ++ data)).length)
    (hbytes : ∀ b ∈ pre ++ data ++ (hash256 (pre ++ data)).take 4, b < 256) :
    fromBase58Check hash256 (toBase58Check hash256 data pre) = Except.ok (pre, data) := by
  simp only [toBase58Check, fromBase58Check]
  rw [fromBase58_toBase58 _ hbytes]
  have hlenC : ((hash256 (pre ++ data)).take 4).length = 4 := by
    rw [List.length_take]
    omega
  have hlen : (pre ++ data ++ (hash256 (pre ++ data)).take 4).length =
      pre.length + data.length + 4 := by
    rw [List.length_append, List.length_append, hlenC]
  have htake : (pre ++ data ++ (hash256 (pre ++ data)).take 4).take
      ((pre ++ data ++ (hash256 (pre ++ data)).take 4).length - 4) = pre ++ data := by
    rw [hlen]
    have : pre.length + data.length + 4 - 4 = (pre ++ data).length := by simp
    rw [this, List.take_left]
  have hdrop : (pre ++ data ++ (hash256 (pre ++ data)).take 4).drop
      ((pre ++ data ++ (hash256 (pre ++ data)).take 4).length - 4) =
      (hash256 (pre ++ data)).take 4 := by
    rw [hlen]
    have : pre.length + data.length + 4 - 4 = (pre ++ data).length := by simp
    rw [this, List.drop_left]
  have hpre1 : (pre ++ data ++ (hash256 (pre ++ data)).take 4).take 1 = pre := by
    rw [List.append_assoc, List.take_left' hpre]
  have hdata1 : List.drop 1 (pre ++ data) = data := by
    rw [← hpre, List.drop_left]
  rw [htake, hdrop, hpre1, hdata1]
  simp

/-! ## Varint lemmas -/

theorem leBytesFixed_lt : ∀ k n, ∀ b ∈ leBytesFixed k n, b < 256
  | 0, _ => by simp [leBytesFixed]
  | k + 1, n => by
    simp only [leBytesFixed, List.mem_cons]
    rintro b (rfl | hb)
    · exact Nat.mod_lt _ (by omega)
    · exact leBytesFixed_lt k (n / 256) b hb

theorem leVal_leBytesFixed : ∀ k n, leVal 256 (leBytesFixed k n) = n % 256 ^ k
  | 0, n => by simp [leBytesFixed, leVal, Nat.mod_one]
  | k + 1, n => by
    simp only [leBytesFixed, leVal, leVal_leBytesFixed k (n / 256)]
    rw [Nat.pow_succ, Nat.mul_comm (256 ^ k) 256, Nat.mod_mul]

theorem leBytesFixed_length : ∀ k n, (leBytesFixed k n).length = k
  | 0, _ => rfl
  | k + 1, n => by simp [leBytesFixed, leBytesFixed_length k (n / 256)]

theorem writeVarIntNum_bytes (n : Nat) : ∀ b ∈ writeVarIntNum n, b < 256 := by
  intro b hb
  unfold writeVarIntNum at hb
  split at hb
  · simp at hb
    omega
  · split at hb
    · simp at hb
      rcases hb with rfl | hb
      · omega
      · exact leBytesFixed_lt 2 n b hb
    · split at hb
      · simp at hb
        rcases hb with rfl | hb
        · omega
        · exact leBytesFixed_lt 4 n b hb
      · simp at hb
        rcases hb with rfl | hb
        · omega
        · exact leBytesFixed_lt 8 n b hb

theorem readVarIntNum_writeVarIntNum (n : Nat) (rest : List Nat)
    (hn : n < 18446744073709551616) :
    readVarIntNum (writeVarIntNum n ++ rest) = (n, rest) := by
  unfold writeVarIntNum
  split
  · rename_i h
    simp only [List.cons_append, List.nil_append, readVarIntNum]
    rw [if_neg (by omega), if_neg (by omega), if_neg (by omega)]
  · split
    · rename_i h1 h2
      have hlen : (leBytesFixed 2 n).length = 2 := leBytesFixed_length 2 n
      simp only [List.cons_append, readVarIntNum, reduceIte,
        List.take_left' hlen, List.drop_left' hlen, leVal_leBytesFixed 2 n]
      rw [Nat.mod_eq_of_lt (by norm_num; omega)]
    · split
      · rename_i h1 h2 h3
        have hlen : (leBytesFixed 4 n).length = 4 := leBytesFixed_length 4 n
        simp only [List.cons_append, readVarIntNum, reduceIte,
          List.take_left' hlen, List.drop_left' hlen, leVal_leBytesFixed 4 n]
        rw [Nat.mod_eq_of_lt (by norm_num; omega)]
        norm_num
      · rename_i h1 h2 h3
        have hlen : (leBytesFixed 8 n).length = 8 := leBytesFixed_length 8 n
        simp only [List.cons_append, readVarIntNum, reduceIte,
          List.take_left' hlen, List.drop_left' hlen, leVal_leBytesFixed 8 n]
        rw [Nat.mod_eq_of_lt (by norm_num; omega)]
        norm_num

/-! ## Address encode and decode round trip -/

theorem address_roundtrip (hash160 hash256 : List Nat → List Nat)
    (h160len : ∀ x, (hash160 x).length = 20)
    (h160bytes : ∀ x, ∀ b ∈ hash160 x, b < 256)
    (h256len : ∀ x, 4 ≤ (hash256 x).length)
    (h256bytes : ∀ x, ∀ b ∈ hash256 x, b < 256)
    (pubkeys : List (List Nat)) (threshold : Int)
    (h1 : 1 ≤ threshold) (h2 : threshold ≤ (pubkeys.length : Int))
    (h3 : 2 ≤ pubkeys.length) (h4 : pubkeys.length < 18446744073709551616) :
    (MultiSigPubkeyHash.address hash160 hash256 pubkeys threshold).bind
      (MultiSigPubkeyHash.thresholdAndTotalFromAddress hash256) =
    Except.ok (hash160 (concatPubkeys pubkeys), threshold.toNat, pubkeys.length) := by
  rw [MultiSigPubkeyHash.address, if_neg (by omega), if_neg (by omega)]
  simp only [Except.bind]
  rw [MultiSigPubkeyHash.thresholdAndTotalFromAddress]
  have hbytes : ∀ b ∈ [152] ++ (hash160 (concatPubkeys pubkeys) ++
      writeVarIntNum threshold.toNat ++ writeVarIntNum pubkeys.length) ++
      (hash256 ([152] ++ (hash160 (concatPubkeys pubkeys) ++
        writeVarIntNum threshold.toNat ++ writeVarIntNum pubkeys.length))).take 4, b < 256 := by
    intro b hb
    simp only [List.mem_append, List.mem_singleton] at hb
    rcases hb with ((rfl | ((hb | hb) | hb)) | hb) <;>
      first
        | omega
        | exact h160bytes _ b hb
        | exact writeVarIntNum_bytes _ b hb
        | exact h256bytes _ b (List.mem_of_mem_take hb)
  rw [fromBase58Check_toBase58Check hash256 _ [152] rfl (h256len _) hbytes]
  simp only [List.head?_cons, ne_eq, Option.some.injEq, not_true_eq_false, reduceIte]
  have htk : (hash160 (concatPubkeys pubkeys) ++ writeVarIntNum threshold.toNat ++
      writeVarIntNum pubkeys.length).take 20 = hash160 (concatPubkeys pubkeys) := by
    rw [List.append_assoc, List.take_left' (h160len _)]
  have hdp : (hash160 (concatPubkeys pubkeys) ++ writeVarIntNum threshold.toNat ++
      writeVarIntNum pubkeys.length).drop 20 = writeVarIntNum threshold.toNat ++
      writeVarIntNum pubkeys.length := by
    rw [List.append_assoc, List.drop_left' (h160len _)]
  rw [htk, hdp]
  have hthr : threshold.toNat < 18446744073709551616 := by omega
  rw [readVarIntNum_writeVarIntNum threshold.toNat _ hthr]
  have h5 := readVarIntNum_writeVarIntNum pubkeys.length [] h4
  rw [List.append_nil] at h5
  simp [h5]

/-! ## Script writer lemmas -/

theorem writeNumber_small (s : Script) (m : Nat) (h1 : 1 ≤ m) (h16 : m ≤ 16) :
    writeNumber s (m : Int) = s ++ [⟨80 + m, none⟩] := by
  rw [writeNumber, if_neg (by omega), if_neg (by omega), if_pos (by constructor <;> omega)]
  rw [writeOpCode]
  have : ((m : Int) + 80).toNat = 80 + m := by omega
  rw [this]

theorem writeNumber_33 (s : Script) : writeNumber s 33 = s ++ [⟨1, some [33]⟩] := rfl

theorem foldl_writeOpCode (op : Nat) :
    ∀ (k : Nat) (s : Script), (List.range k).foldl (fun s _ => writeOpCode s op) s
      = s ++ List.replicate k ⟨op, none⟩
  | 0, s => by simp
  | k + 1, s => by
    rw [List.range_succ, List.foldl_append, foldl_writeOpCode op k s]
    simp [writeOpCode, List.replicate_succ' k]

theorem foldl_splitLoop :
    ∀ (k : Nat) (s : Script),
      (List.range k).foldl (fun s _ => writeOpCode (writeNumber s (33 : Int)) 127) s
        = s ++ (List.replicate k ([⟨1, some [33]⟩, ⟨127, none⟩] : List ScriptChunk)).flatten
  | 0, s => by simp
  | k + 1, s => by
    rw [List.range_succ, List.foldl_append, foldl_splitLoop k s]
    simp only [List.foldl_cons, List.foldl_nil, writeNumber_33, writeOpCode,
      List.replicate_succ' k, List.flatten_append]
    simp

theorem lockChunks_explicit (hash : List Nat) (M N : Nat)
    (h1 : 1 ≤ M) (h16 : M ≤ 16) (hN1 : 1 ≤ N) (hN16 : N ≤ 16) :
    lockChunks hash M N =
      List.replicate (N - 1) ⟨126, none⟩ ++
      [⟨118, none⟩, ⟨169, none⟩, ⟨pushOp hash.length, some hash⟩, ⟨136, none⟩,
        ⟨80 + M, none⟩, ⟨124, none⟩] ++
      (List.replicate (N - 1) ([⟨1, some [33]⟩, ⟨127, none⟩] : List ScriptChunk)).flatten ++
      [⟨80 + N, none⟩, ⟨174, none⟩] := by
  rw [lockChunks]
  rw [foldl_writeOpCode, foldl_splitLoop]
  rw [writeNumber_small _ M h1 h16, writeNumber_small _ N hN1 hN16]
  simp [writeOpCode, writeBin]

/-! ## Locking script decode lemmas -/

theorem pushOp_ne_136 (len : Nat) : pushOp len ≠ 136 := by
  unfold pushOp
  split_ifs <;> omega

theorem findIdx_append_of_false (p : α → Bool) (l₁ l₂ : List α)
    (h : ∀ a ∈ l₁, p a = false) :
    (l₁ ++ l₂).findIdx p = l₁.length + l₂.findIdx p := by
  induction l₁ with
  | nil => simp
  | cons x t ih =>
    have hx : p x = false := h x (by simp)
    simp only [List.cons_append, List.findIdx_cons, hx, cond_false, List.length_cons]
    rw [ih (fun a ha => h a (by simp [ha]))]
    omega

theorem getD_at_append (l₁ : List α) (x : α) (l₂ : List α) (d : α) (i : Nat)
    (h : i = l₁.length) : (l₁ ++ x :: l₂).getD i d = x := by
  subst h
  rw [List.getD_eq_getElem?_getD, List.getElem?_append_right le_rfl]
  simp

theorem flatten_replicate_pair_length (a b : α) :
    ∀ k, ((List.replicate k ([a, b] : List α)).flatten).length = 2 * k
  | 0 => rfl
  | k + 1 => by
    have ih := flatten_replicate_pair_length a b k
    rw [List.replicate_succ, List.flatten_cons, List.length_append, ih]
    simp
    omega

theorem lockChunks_length (hash : List Nat) (M N : Nat)
    (h1 : 1 ≤ M) (h16 : M ≤ 16) (hN1 : 2 ≤ N) (hN16 : N ≤ 16) :
    (lockChunks hash M N).length = 3 * N + 5 := by
  rw [lockChunks_explicit hash M N h1 h16 (by omega) hN16]
  simp [flatten_replicate_pair_length]
  omega

theorem lockChunks_findIdx (hash : List Nat) (M N : Nat)
    (h1 : 1 ≤ M) (h16 : M ≤ 16) (hN1 : 2 ≤ N) (hN16 : N ≤ 16) :
    (lockChunks hash M N).findIdx (fun c => c.op == 136) = N + 2 := by
  rw [lockChunks_explicit hash M N h1 h16 (by omega) hN16]
  simp only [List.append_assoc, List.cons_append, List.nil_append]
  rw [findIdx_append_of_false _ _ _ (by
    intro a ha
    rw [List.eq_of_mem_replicate ha]
    rfl)]
  have hb3 : ((pushOp hash.length : Nat) == 136) = false :=
    beq_eq_false_iff_ne.mpr (pushOp_ne_136 hash.length)
  simp [List.findIdx_cons, hb3]
  omega

theorem lockChunks_getD_threshold (hash : List Nat) (M N : Nat)
    (h1 : 1 ≤ M) (h16 : M ≤ 16) (hN1 : 2 ≤ N) (hN16 : N ≤ 16) :
    (lockChunks hash M N).getD (N + 3) ⟨0, none⟩ = ⟨80 + M, none⟩ := by
  have hshape : lockChunks hash M N =
      (List.replicate (N - 1) (⟨126, none⟩ : ScriptChunk) ++
        [⟨118, none⟩, ⟨169, none⟩, ⟨pushOp hash.length, some hash⟩, ⟨136, none⟩]) ++
      (⟨80 + M, none⟩ : ScriptChunk) ::
      ((⟨124, none⟩ : ScriptChunk) ::
        ((List.replicate (N - 1) ([⟨1, some [33]⟩, ⟨127, none⟩] : List ScriptChunk)).flatten ++
         [⟨80 + N, none⟩, ⟨174, none⟩])) := by
    rw [lockChunks_explicit hash M N h1 h16 (by omega) hN16]
    simp
  rw [hshape]
  exact getD_at_append _ _ _ _ (N + 3) (by simp; omega)

theorem lockChunks_getD_total (hash : List Nat) (M N : Nat)
    (h1 : 1 ≤ M) (h16 : M ≤ 16) (hN1 : 2 ≤ N) (hN16 : N ≤ 16) :
    (lockChunks hash M N).getD (3 * N + 3) ⟨0, none⟩ = ⟨80 + N, none⟩ := by
  rw [lockChunks_explicit hash M N h1 h16 (by omega) hN16]
  exact getD_at_append _ _ _ _ (3 * N + 3)
    (by simp [flatten_replicate_pair_length]; omega)

theorem numberFromScriptChunk_opcode (v : Nat) :
    numberFromScriptChunk ⟨80 + v, none⟩ = (v : Int) := by
  simp [numberFromScriptChunk]
  omega

theorem decodeCommitment_lockChunks (hash : List Nat) (M N : Nat)
    (h1 : 1 ≤ M) (h16 : M ≤ 16) (hN1 : 2 ≤ N) (hN16 : N ≤ 16) :
    decodeCommitment (lockChunks hash M N) = ((M : Int), (N : Int)) := by
  rw [decodeCommitment]
  rw [lockChunks_length hash M N h1 h16 hN1 hN16,
    lockChunks_findIdx hash M N h1 h16 hN1 hN16]
  rw [if_neg (by omega)]
  have e1 : N + 2 + 1 = N + 3 := by omega
  have e2 : 3 * N + 5 - 2 = 3 * N + 3 := by omega
  rw [e1, e2, lockChunks_getD_threshold hash M N h1 h16 hN1 hN16,
    lockChunks_getD_total hash M N h1 h16 hN1 hN16,
    numberFromScriptChunk_opcode, numberFromScriptChunk_opcode]

/-! ## Number write and read lemmas -/

theorem natDigits_ne_nil (B n : Nat) (hB : 2 ≤ B) (hn : n ≠ 0) : natDigits B n ≠ [] := by
  intro hnil
  have h := leVal_natDigits B n hB
  rw [hnil] at h
  simp [leVal] at h
  exact hn h.symm

theorem leVal_take8_toSmLittle (v : Nat) (h17 : 17 ≤ v)
    (hv : v < 18446744073709551616) :
    leVal 256 ((toSmLittle (v : Int)).take 8) = v := by
  have hne : natDigits 256 v ≠ [] := natDigits_ne_nil 256 v (by omega) (by omega)
  have hlen : (natDigits 256 v).length ≤ 8 :=
    natDigits_length_le 256 v 8 (by omega) (by norm_num; omega)
  obtain ⟨top, htop⟩ : ∃ top, (natDigits 256 v).getLast? = some top :=
    ⟨_, List.getLast?_eq_getLast _ hne⟩
  unfold toSmLittle
  simp only [Int.natAbs_ofNat]
  rw [htop]
  dsimp only
  rw [if_neg (by omega : ¬(v : Int) < 0)]
  by_cases h128 : 128 ≤ top
  · rw [if_pos h128]
    by_cases hl : (natDigits 256 v).length = 8
    · rw [← hl, List.take_left, leVal_natDigits 256 v (by omega)]
    · rw [List.take_of_length_le (by simp; omega), leVal_append]
      simp [leVal]
      rw [leVal_natDigits 256 v (by omega)]
  · rw [if_neg h128, List.take_of_length_le (by omega), leVal_natDigits 256 v (by omega)]

deriving instance DecidableEq for Except

/-! ## Signing helper lemmas -/

theorem foldl_writeBin (pks : List (List Nat)) : ∀ s : Script,
    pks.foldl (fun s pk => writeBin s pk) s =
      s ++ pks.map (fun pk => (⟨pushOp pk.length, some pk⟩ : ScriptChunk)) := by
  induction pks with
  | nil => simp
  | cons p t ih =>
    intro s
    simp only [List.foldl_cons, ih, List.map_cons]
    simp [writeBin]

theorem spliceInsert_before_suffix (pre suf : List α) (x : α) :
    spliceInsert (pre ++ suf) ((pre ++ suf).length - suf.length) x = pre ++ x :: suf := by
  have h : (pre ++ suf).length - suf.length = pre.length := by simp
  rw [spliceInsert, h, List.take_left, List.drop_left]

/-! ## The lock construction on an explicit key list -/

theorem lock_keys_ok (hash160 hash256 : List Nat → List Nat)
    (pubkeys : List (List Nat)) (M : Nat)
    (hN2 : 2 ≤ pubkeys.length) (hN10 : pubkeys.length ≤ 10)
    (hM1 : 1 ≤ M) (hMN : M ≤ pubkeys.length) :
    MultiSigPubkeyHash.lock hash160 hash256 none (some pubkeys) (M : Int) =
      Except.ok (lockChunks (hash160 (concatPubkeys pubkeys)) M pubkeys.length) := by
  unfold MultiSigPubkeyHash.lock
  simp only [Option.map_some', Option.getD_some]
  rw [if_neg (by omega : ¬pubkeys.length < 2)]
  dsimp only
  rw [if_neg (by omega), if_neg (by omega)]
  simp

/-! ## Concrete instantiations of the external hash primitives, used only to
evaluate closed statements; every quantified theorem holds for arbitrary
functions with the stated byte and length properties. -/

/-- Constant-output instantiation of the external HASH160 primitive. -/
def hash160Fix : List Nat → List Nat := fun _ => List.replicate 20 0

/-- Constant-output instantiation of the external double-SHA256 primitive. -/
def hash256Fix : List Nat → List Nat := fun _ => List.replicate 32 0

/-! ## Claim theorems -/

/-- C1: for every commitment with total N (2 ≤ N ≤ 10) and threshold M
(1 ≤ M ≤ N), lock emits exactly the opcode sequence N-1 times OP_CAT, then
OP_DUP, OP_HASH160, a push of the 20-byte hash, OP_EQUALVERIFY, push(M),
OP_SWAP, then N-1 repetitions of push(33) and OP_SPLIT, then push(N) and
OP_CHECKMULTISIG, where the numeric literals M and N (values 1 to 16) are
minimal single-byte opcodes 0x50+value and 33 is a one-byte push datum. -/
theorem lock_emits_exact_opcode_sequence (hash160 hash256 : List Nat → List Nat)
    (pubkeys : List (List Nat)) (M : Nat)
    (hDER : ∀ k ∈ pubkeys, k.length = 33)
    (hlen : (hash160 (concatPubkeys pubkeys)).length = 20)
    (hN2 : 2 ≤ pubkeys.length) (hN10 : pubkeys.length ≤ 10)
    (hM1 : 1 ≤ M) (hMN : M ≤ pubkeys.length) :
    MultiSigPubkeyHash.lock hash160 hash256 none (some pubkeys) (M : Int) =
      Except.ok (
        List.replicate (pubkeys.length - 1) ⟨126, none⟩ ++
        [⟨118, none⟩, ⟨169, none⟩, ⟨20, some (hash160 (concatPubkeys pubkeys))⟩,
          ⟨136, none⟩, ⟨80 + M, none⟩, ⟨124, none⟩] ++
        (List.replicate (pubkeys.length - 1)
          ([⟨1, some [33]⟩, ⟨127, none⟩] : List ScriptChunk)).flatten ++
        [⟨80 + pubkeys.length, none⟩, ⟨174, none⟩]) := by
  rw [lock_keys_ok hash160 hash256 pubkeys M hN2 hN10 hM1 hMN]
  rw [lockChunks_explicit _ M _ hM1 (by omega) (by omega) (by omega)]
  rw [hlen]
  rfl

/-- Witness for C1 at two 33-byte keys and threshold 1. -/
theorem lock_emits_exact_opcode_sequence_witness :
    MultiSigPubkeyHash.lock hash160Fix hash256Fix none
        (some [List.replicate 33 2, List.replicate 33 3]) ((1 : Nat) : Int) =
      Except.ok (
        List.replicate 1 ⟨126, none⟩ ++
        [⟨118, none⟩, ⟨169, none⟩,
          ⟨20, some (hash160Fix (concatPubkeys [List.replicate 33 2, List.replicate 33 3]))⟩,
          ⟨136, none⟩, ⟨80 + 1, none⟩, ⟨124, none⟩] ++
        (List.replicate 1 ([⟨1, some [33]⟩, ⟨127, none⟩] : List ScriptChunk)).flatten ++
        [⟨80 + 2, none⟩, ⟨174, none⟩]) := by
  have h := lock_emits_exact_opcode_sequence hash160Fix hash256Fix
    [List.replicate 33 2, List.replicate 33 3] 1
    (by decide) (by rfl) (by decide) (by decide) (by decide) (by decide)
  simpa using h

/-- C4: for every ordered list of N compressed public keys with
2 ≤ N ≤ 10 and every threshold M with 1 ≤ M ≤ N, decoding the address
produced by the static address encoder returns exactly the HASH160 of the
concatenated DER encodings in list order, threshold M and total N. -/
theorem address_decode_roundtrip (hash160 hash256 : List Nat → List Nat)
    (h160len : ∀ x, (hash160 x).length = 20)
    (h160bytes : ∀ x, ∀ b ∈ hash160 x, b < 256)
    (h256len : ∀ x, 4 ≤ (hash256 x).length)
    (h256bytes : ∀ x, ∀ b ∈ hash256 x, b < 256)
    (pubkeys : List (List Nat)) (M : Nat)
    (hDER : ∀ k ∈ pubkeys, k.length = 33)
    (hN2 : 2 ≤ pubkeys.length) (hN10 : pubkeys.length ≤ 10)
    (hM1 : 1 ≤ M) (hMN : M ≤ pubkeys.length) :
    (MultiSigPubkeyHash.address hash160 hash256 pubkeys (M : Int)).bind
      (MultiSigPubkeyHash.thresholdAndTotalFromAddress hash256) =
    Except.ok (hash160 (concatPubkeys pubkeys), M, pubkeys.length) := by
  have h := address_roundtrip hash160 hash256 h160len h160bytes h256len h256bytes
    pubkeys (M : Int) (by omega) (by omega) hN2 (by omega)
  simpa using h

/-- Witness for C4 at two 33-byte keys and threshold 2. -/
theorem address_decode_roundtrip_witness :
    (MultiSigPubkeyHash.address hash160Fix hash256Fix
        [List.replicate 33 2, List.replicate 33 3] ((2 : Nat) : Int)).bind
      (MultiSigPubkeyHash.thresholdAndTotalFromAddress hash256Fix) =
    Except.ok (hash160Fix (concatPubkeys [List.replicate 33 2, List.replicate 33 3]), 2, 2) := by
  have h := address_decode_roundtrip hash160Fix hash256Fix
    (fun _ => by simp [hash160Fix]) (fun _ b hb => by
      simp [hash160Fix, List.eq_of_mem_replicate hb])
    (fun _ => by simp [hash256Fix]) (fun _ b hb => by
      simp [hash256Fix, List.eq_of_mem_replicate hb])
    [List.replicate 33 2, List.replicate 33 3] 2
    (by decide) (by decide) (by decide) (by decide) (by decide)
  simpa using h

/-- C5: for every threshold M and total N with 1 ≤ M ≤ N ≤ 10 and N ≥ 2,
decoding the commitment of the locking script built by lock (the numeric
chunk after OP_EQUALVERIFY and the chunk before the trailing
OP_CHECKMULTISIG) yields exactly threshold M and total N. -/
theorem decodeCommitment_of_lock (hash160 hash256 : List Nat → List Nat)
    (pubkeys : List (List Nat)) (M : Nat) (s : Script)
    (hN2 : 2 ≤ pubkeys.length) (hN10 : pubkeys.length ≤ 10)
    (hM1 : 1 ≤ M) (hMN : M ≤ pubkeys.length)
    (hs : MultiSigPubkeyHash.lock hash160 hash256 none (some pubkeys) (M : Int) =
      Except.ok s) :
    decodeCommitment s = ((M : Int), (pubkeys.length : Int)) := by
  rw [lock_keys_ok hash160 hash256 pubkeys M hN2 hN10 hM1 hMN] at hs
  injection hs with hs
  subst hs
  exact decodeCommitment_lockChunks _ M _ hM1 (by omega) hN2 (by omega)

/-- Witness for C5 at three keys and threshold 2. -/
theorem decodeCommitment_of_lock_witness :
    decodeCommitment ((MultiSigPubkeyHash.lock hash160Fix hash256Fix none
        (some [[2], [3], [4]]) ((2 : Nat) : Int)).toOption.getD []) =
      (((2 : Nat) : Int), ((3 : Nat) : Int)) := by
  have hlock := lock_keys_ok hash160Fix hash256Fix [[2], [3], [4]] 2
    (by decide) (by decide) (by decide) (by decide)
  have h := decodeCommitment_of_lock hash160Fix hash256Fix [[2], [3], [4]] 2
    (lockChunks (hash160Fix (concatPubkeys [[2], [3], [4]])) 2 3)
    (by decide) (by decide) (by decide) (by decide) hlock
  rw [hlock]
  simpa using h

/-- C8: the script number reader accepts both encodings produced by the
script writer: a value 1..16 written as the minimal single-byte opcode and
a larger value (here any value up to 2^64-1, covering every small integer)
written as a push-data chunk both read back as exactly the value. -/
theorem numberFromScriptChunk_of_writeNumber (v : Nat)
    (h1 : 1 ≤ v) (hv : v < 18446744073709551616) :
    (writeNumber [] (v : Int)).map numberFromScriptChunk = [(v : Int)] := by
  by_cases h16 : v ≤ 16
  · rw [writeNumber_small [] v h1 h16]
    simp only [List.nil_append, List.map_cons, List.map_nil,
      numberFromScriptChunk_opcode]
  · rw [writeNumber, if_neg (by omega), if_neg (by omega),
      if_neg (by omega), writeBin]
    simp only [List.nil_append, List.map_cons, List.map_nil]
    rw [show numberFromScriptChunk ⟨pushOp (toSmLittle (v : Int)).length,
        some (toSmLittle (v : Int))⟩ =
      (leVal 256 ((toSmLittle (v : Int)).take 8) : Int) from rfl]
    rw [leVal_take8_toSmLittle v (by omega) hv]

/-- Witness for C8 at the opcode-encoded value 7 and the push-data-encoded
value 33. -/
theorem numberFromScriptChunk_of_writeNumber_witness :
    (writeNumber [] ((7 : Nat) : Int)).map numberFromScriptChunk = [((7 : Nat) : Int)] ∧
    (writeNumber [] ((33 : Nat) : Int)).map numberFromScriptChunk = [((33 : Nat) : Int)] :=
  ⟨numberFromScriptChunk_of_writeNumber 7 (by decide) (by norm_num),
   numberFromScriptChunk_of_writeNumber 33 (by decide) (by norm_num)⟩

/-- Common reduction of a successful sign call: with a resolvable source
transaction id, nonzero source satoshis and a locking script, the call
splices the new signature chunk into the working script at the position
that is the script length minus the instruction pubkey count. -/
theorem unlockSign_reduces (instrPubkeys : List (List Nat))
    (w : Option Script) (wus : Script) (sourceSats : Nat) (ls : Script)
    (sigForScript : List Nat) (tx : Transaction) (inputIndex : Nat)
    (input : TxInput) (t : String)
    (hin : tx.inputs[inputIndex]? = some input)
    (htxid : input.sourceTXID = some t) (ht : t ≠ "")
    (hv : sourceSats ≠ 0)
    (hw : (match w with
      | some u => u
      | none => instrPubkeys.foldl (fun s pk => writeBin s pk) (writeOpCode [] 0)) = wus) :
    MultiSigPubkeyHash.unlockSign instrPubkeys w (some sourceSats) (some ls)
        sigForScript tx inputIndex =
      Except.ok (spliceInsert wus (wus.length - instrPubkeys.length)
        ⟨pushOp sigForScript.length, some sigForScript⟩) := by
  unfold MultiSigPubkeyHash.unlockSign
  rw [hw, hin]
  dsimp only
  rw [htxid]
  dsimp only
  rw [if_pos ht]
  simp only [Option.getD_some]
  rw [if_neg ht]
  simp only [ne_eq, hv, not_false_eq_true, if_true, reduceIte, Option.getD_some,
    writeBin, List.dropLast_concat, List.getLast?_concat]

/-- C2: for a prior working unlocking script OP_0, sig_1..sig_k,
pubkey_1..pubkey_N (and for the initial state OP_0, pubkey_1..pubkey_N
built when no prior state is given), a successful sign call inserts the
new signature chunk immediately before the N pubkey chunks and after the k
prior signatures, preserving first-signed-first order. -/
theorem sign_inserts_signature_before_pubkeys
    (instrPubkeys : List (List Nat)) (sigs pkChunks : List ScriptChunk)
    (sourceSats : Nat) (ls : Script) (sigForScript : List Nat)
    (tx : Transaction) (inputIndex : Nat) (input : TxInput) (t : String)
    (hin : tx.inputs[inputIndex]? = some input)
    (htxid : input.sourceTXID = some t) (ht : t ≠ "")
    (hv : sourceSats ≠ 0)
    (hk : pkChunks.length = instrPubkeys.length) :
    MultiSigPubkeyHash.unlockSign instrPubkeys
        (some (⟨0, none⟩ :: (sigs ++ pkChunks))) (some sourceSats) (some ls)
        sigForScript tx inputIndex =
      Except.ok (⟨0, none⟩ ::
        (sigs ++ ⟨pushOp sigForScript.length, some sigForScript⟩ :: pkChunks)) ∧
    MultiSigPubkeyHash.unlockSign instrPubkeys none (some sourceSats) (some ls)
        sigForScript tx inputIndex =
      Except.ok (⟨0, none⟩ :: ⟨pushOp sigForScript.length, some sigForScript⟩ ::
        instrPubkeys.map (fun pk => (⟨pushOp pk.length, some pk⟩ : ScriptChunk))) := by
  constructor
  · rw [unlockSign_reduces instrPubkeys _ (⟨0, none⟩ :: (sigs ++ pkChunks))
      sourceSats ls sigForScript tx inputIndex input t hin htxid ht hv rfl]
    have hsh : ((⟨0, none⟩ : ScriptChunk) :: (sigs ++ pkChunks) : Script) =
        ((⟨0, none⟩ :: sigs) ++ pkChunks) := by simp
    rw [hsh, ← hk, spliceInsert_before_suffix]
    simp
  · rw [unlockSign_reduces instrPubkeys none
      ((⟨0, none⟩ : ScriptChunk) ::
        instrPubkeys.map (fun pk => (⟨pushOp pk.length, some pk⟩ : ScriptChunk)))
      sourceSats ls sigForScript tx inputIndex input t hin htxid ht hv
      (by rw [foldl_writeBin]; simp [writeOpCode])]
    have hidx : ((⟨0, none⟩ : ScriptChunk) ::
        instrPubkeys.map (fun pk => (⟨pushOp pk.length, some pk⟩ : ScriptChunk))).length -
        instrPubkeys.length = 1 := by
      simp
    rw [hidx]
    simp [spliceInsert]

/-- Witness for C2 with one prior signature and two pubkeys. -/
theorem sign_inserts_signature_before_pubkeys_witness :
    MultiSigPubkeyHash.unlockSign [[5], [6]]
        (some (⟨0, none⟩ :: ([⟨1, some [9]⟩] ++ [⟨1, some [5]⟩, ⟨1, some [6]⟩])))
        (some 5) (some []) [7, 7]
        ⟨1, [⟨some "ab", none, 0, none⟩], [], 0⟩ 0 =
      Except.ok (⟨0, none⟩ ::
        ([⟨1, some [9]⟩] ++ ⟨pushOp [7, 7].length, some [7, 7]⟩ ::
          [⟨1, some [5]⟩, ⟨1, some [6]⟩])) ∧
    MultiSigPubkeyHash.unlockSign [[5], [6]] none (some 5) (some []) [7, 7]
        ⟨1, [⟨some "ab", none, 0, none⟩], [], 0⟩ 0 =
      Except.ok (⟨0, none⟩ :: ⟨pushOp [7, 7].length, some [7, 7]⟩ ::
        ([[5], [6]] : List (List Nat)).map
          (fun pk => (⟨pushOp pk.length, some pk⟩ : ScriptChunk))) :=
  sign_inserts_signature_before_pubkeys [[5], [6]] [⟨1, some [9]⟩]
    [⟨1, some [5]⟩, ⟨1, some [6]⟩] 5 [] [7, 7]
    ⟨1, [⟨some "ab", none, 0, none⟩], [], 0⟩ 0 ⟨some "ab", none, 0, none⟩ "ab"
    rfl rfl (by decide) (by decide) rfl

/-- C9: when the resolvable source output carries exactly zero satoshis,
both for an explicit zero sourceSatoshis argument and for an absent one
falling back to the attached source transaction output, sign throws the
missing sourceSatoshis error, treating zero like an absent value. -/
theorem sign_zero_satoshis_error
    (instrPubkeys : List (List Nat)) (w : Option Script)
    (sourceSatoshis : Option Nat) (lockingScriptParam : Option Script)
    (sigForScript : List Nat) (tx : Transaction) (inputIndex : Nat)
    (input : TxInput) (t : String) (st : SourceTx) (o : TxOutput)
    (hin : tx.inputs[inputIndex]? = some input)
    (htxid : input.sourceTXID = some t) (ht : t ≠ "")
    (hst : input.sourceTransaction = some st)
    (ho : st.outputs[input.sourceOutputIndex]? = some o)
    (hsat : o.satoshis = some 0)
    (hparam : sourceSatoshis = none ∨ sourceSatoshis = some 0) :
    MultiSigPubkeyHash.unlockSign instrPubkeys w sourceSatoshis
        lockingScriptParam sigForScript tx inputIndex =
      Except.error "The sourceSatoshis or input sourceTransaction is required for transaction signing." := by
  unfold MultiSigPubkeyHash.unlockSign
  rw [hin]
  dsimp only
  rw [htxid]
  dsimp only
  rw [if_pos ht]
  simp only [Option.getD_some]
  rw [if_neg ht]
  rw [hst]
  dsimp only
  rw [ho]
  dsimp only
  rw [hsat]
  rcases hparam with rfl | rfl
  · simp
  · simp

/-- Witness for C9 with an attached source transaction whose spent output
has zero satoshis and an explicit zero argument. -/
theorem sign_zero_satoshis_error_witness :
    MultiSigPubkeyHash.unlockSign [[5]] none (some 0) none [7]
        ⟨1, [⟨some "ab", some ⟨"cd", [⟨some 0, []⟩]⟩, 0, none⟩], [], 0⟩ 0 =
      Except.error "The sourceSatoshis or input sourceTransaction is required for transaction signing." :=
  sign_zero_satoshis_error [[5]] none (some 0) none [7]
    ⟨1, [⟨some "ab", some ⟨"cd", [⟨some 0, []⟩]⟩, 0, none⟩], [], 0⟩ 0
    ⟨some "ab", some ⟨"cd", [⟨some 0, []⟩]⟩, 0, none⟩ "ab" ⟨"cd", [⟨some 0, []⟩]⟩
    ⟨some 0, []⟩ rfl rfl (by decide) rfl rfl rfl (Or.inr rfl)

/-- C10: for an input with no attached source transaction, estimateLength
returns the fixed placeholder 1000, whatever locking script was supplied
to unlock; the estimation consults only the sourceTransaction of the
input. -/
theorem estimateLength_placeholder (lockingScriptParam : Option Script)
    (tx : Transaction) (inputIndex : Nat) (input : TxInput)
    (hin : tx.inputs[inputIndex]? = some input)
    (hst : input.sourceTransaction = none) :
    MultiSigPubkeyHash.unlockEstimateLength lockingScriptParam tx inputIndex =
      Except.ok 1000 := by
  unfold MultiSigPubkeyHash.unlockEstimateLength
  rw [hin]
  dsimp only
  rw [hst]

/-- Witness for C10 with an explicitly supplied locking script that is
still ignored. -/
theorem estimateLength_placeholder_witness :
    MultiSigPubkeyHash.unlockEstimateLength (some [⟨0, none⟩])
        ⟨1, [⟨some "ab", none, 0, none⟩], [], 0⟩ 0 = Except.ok 1000 :=
  estimateLength_placeholder (some [⟨0, none⟩])
    ⟨1, [⟨some "ab", none, 0, none⟩], [], 0⟩ 0 ⟨some "ab", none, 0, none⟩ rfl rfl

/-- C3: for an input whose source transaction carries a P2MSH locking
script built for threshold M and total N, estimateLength returns the
static overhead 1 plus M times 74 plus N times 34, M and N being the
values decoded from that locking script. -/
theorem estimateLength_formula (lockingScriptParam : Option Script)
    (hash : List Nat) (M N : Nat)
    (tx : Transaction) (inputIndex : Nat) (input : TxInput)
    (st : SourceTx) (o : TxOutput)
    (hin : tx.inputs[inputIndex]? = some input)
    (hst : input.sourceTransaction = some st)
    (ho : st.outputs[input.sourceOutputIndex]? = some o)
    (hlock : o.lockingScript = lockChunks hash M N)
    (hM1 : 1 ≤ M) (hMN : M ≤ N) (hN2 : 2 ≤ N) (hN10 : N ≤ 10) :
    MultiSigPubkeyHash.unlockEstimateLength lockingScriptParam tx inputIndex =
      Except.ok (1 + (M : Int) * 74 + (N : Int) * 34) := by
  unfold MultiSigPubkeyHash.unlockEstimateLength
  rw [hin]
  dsimp only
  rw [hst]
  dsimp only
  rw [ho]
  dsimp only
  rw [hlock]
  rw [lockChunks_length hash M N hM1 (by omega) hN2 (by omega),
    lockChunks_findIdx hash M N hM1 (by omega) hN2 (by omega)]
  rw [if_neg (by omega)]
  have e1 : N + 2 + 1 = N + 3 := by omega
  have e2 : 3 * N + 5 - 2 = 3 * N + 3 := by omega
  rw [e1, e2, lockChunks_getD_threshold hash M N hM1 (by omega) hN2 (by omega),
    lockChunks_getD_total hash M N hM1 (by omega) hN2 (by omega),
    numberFromScriptChunk_opcode, numberFromScriptChunk_opcode]

/-- Witness for C3 with a 2-of-3 locking script: the estimate is
1 + 2 times 74 + 3 times 34 = 251. -/
theorem estimateLength_formula_witness :
    MultiSigPubkeyHash.unlockEstimateLength none
        ⟨1, [⟨some "ab", some ⟨"cd", [⟨some 5, lockChunks (List.replicate 20 0) 2 3⟩]⟩,
          0, none⟩], [], 0⟩ 0 =
      Except.ok (1 + ((2 : Nat) : Int) * 74 + ((3 : Nat) : Int) * 34) :=
  estimateLength_formula none (List.replicate 20 0) 2 3
    ⟨1, [⟨some "ab", some ⟨"cd", [⟨some 5, lockChunks (List.replicate 20 0) 2 3⟩]⟩,
      0, none⟩], [], 0⟩ 0
    ⟨some "ab", some ⟨"cd", [⟨some 5, lockChunks (List.replicate 20 0) 2 3⟩]⟩, 0, none⟩
    ⟨"cd", [⟨some 5, lockChunks (List.replicate 20 0) 2 3⟩]⟩
    ⟨some 5, lockChunks (List.replicate 20 0) 2 3⟩
    rfl rfl rfl rfl (by decide) (by decide) (by decide) (by decide)

/-- Counterexample to C6 as stated: with a single key and threshold 0 the
call fails with the insufficient-keys error, not the threshold error; and
with eleven keys and threshold 0 it fails with the threshold error, not
the too-many-participants error. -/
theorem lock_validation_error_precedence_counterexample :
    MultiSigPubkeyHash.lock hash160Fix hash256Fix none (some [[2]]) 0 =
      Except.error "at least 2 pubkeys are required" ∧
    MultiSigPubkeyHash.lock hash160Fix hash256Fix none
        (some (List.replicate 11 [2])) 0 =
      Except.error "threshold must be between 1 and the number of pubkeys" :=
  ⟨rfl, rfl⟩

/-- C6 amended: for an explicit key list of at least two keys, a threshold
below 1 or above N fails with the threshold-out-of-range error; and for a
threshold within 1..N, a key list of more than ten keys fails with the
too-many-participants error. With fewer than two keys the
insufficient-keys check precedes, and with an out-of-range threshold the
threshold check precedes the participant bound. -/
theorem lock_validation_errors (hash160 hash256 : List Nat → List Nat)
    (pubkeys : List (List Nat)) (M : Int) :
    (2 ≤ pubkeys.length → (M < 1 ∨ M > (pubkeys.length : Int)) →
      MultiSigPubkeyHash.lock hash160 hash256 none (some pubkeys) M =
        Except.error "threshold must be between 1 and the number of pubkeys") ∧
    (1 ≤ M → M ≤ (pubkeys.length : Int) → 10 < pubkeys.length →
      MultiSigPubkeyHash.lock hash160 hash256 none (some pubkeys) M =
        Except.error "total must be less than or equal to 10") := by
  constructor
  · intro h2 hbad
    unfold MultiSigPubkeyHash.lock
    simp only [Option.map_some', Option.getD_some]
    rw [if_neg (by omega)]
    dsimp only
    rw [if_pos (by omega)]
  · intro h1 hM h10
    unfold MultiSigPubkeyHash.lock
    simp only [Option.map_some', Option.getD_some]
    rw [if_neg (by omega)]
    dsimp only
    rw [if_neg (by omega), if_pos (by omega)]

/-- Witness for the amended C6 at two keys with threshold 0 and at eleven
keys with threshold 1. -/
theorem lock_validation_errors_witness :
    MultiSigPubkeyHash.lock hash160Fix hash256Fix none (some [[1], [2]]) 0 =
      Except.error "threshold must be between 1 and the number of pubkeys" ∧
    MultiSigPubkeyHash.lock hash160Fix hash256Fix none
        (some (List.replicate 11 [2])) 1 =
      Except.error "total must be less than or equal to 10" :=
  ⟨(lock_validation_errors hash160Fix hash256Fix [[1], [2]] 0).1
      (by decide) (by norm_num),
   (lock_validation_errors hash160Fix hash256Fix (List.replicate 11 [2]) 1).2
      (by norm_num) (by norm_num) (by norm_num)⟩

/-- Counterexample to C7 as stated: the address encoder succeeds on a list
of eleven keys, producing an address that decodes to total 11 > 10, so the
encoder does not guarantee total ≤ 10 and does not fail for more than ten
keys. -/
theorem address_encodes_eleven_keys_counterexample :
    (MultiSigPubkeyHash.address hash160Fix hash256Fix (List.replicate 11 [2]) 1).bind
      (MultiSigPubkeyHash.thresholdAndTotalFromAddress hash256Fix) =
    Except.ok (List.replicate 20 0, 1, 11) := by
  have h := address_roundtrip hash160Fix hash256Fix
    (fun _ => by simp [hash160Fix])
    (fun _ b hb => by simp [hash160Fix] at hb; omega)
    (fun _ => by simp [hash256Fix])
    (fun _ b hb => by simp [hash256Fix] at hb; omega)
    (List.replicate 11 [2]) 1 (by norm_num) (by norm_num) (by norm_num) (by norm_num)
  simpa [hash160Fix] using h

/-- C7 amended: every commitment produced by the address encoder decodes
with threshold at least 1, threshold at most total, and total at least 2;
the encoder does not bound the total by 10 (that bound is enforced only at
lock time). -/
theorem address_success_bounds (hash160 hash256 : List Nat → List Nat)
    (h160len : ∀ x, (hash160 x).length = 20)
    (h160bytes : ∀ x, ∀ b ∈ hash160 x, b < 256)
    (h256len : ∀ x, 4 ≤ (hash256 x).length)
    (h256bytes : ∀ x, ∀ b ∈ hash256 x, b < 256)
    (pubkeys : List (List Nat)) (M : Int) (addr : List Nat)
    (hbound : pubkeys.length < 18446744073709551616)
    (hok : MultiSigPubkeyHash.address hash160 hash256 pubkeys M = Except.ok addr) :
    MultiSigPubkeyHash.thresholdAndTotalFromAddress hash256 addr =
      Except.ok (hash160 (concatPubkeys pubkeys), M.toNat, pubkeys.length) ∧
    1 ≤ M.toNat ∧ M.toNat ≤ pubkeys.length ∧ 2 ≤ pubkeys.length := by
  have hcond1 : ¬(M < 1 ∨ M > (pubkeys.length : Int)) := by
    intro hc
    rw [MultiSigPubkeyHash.address, if_pos hc] at hok
    exact absurd hok (by simp)
  have hcond2 : ¬(pubkeys.length < 2 ∨ (pubkeys.length : Int) < M) := by
    intro hc
    rw [MultiSigPubkeyHash.address, if_neg hcond1, if_pos hc] at hok
    exact absurd hok (by simp)
  have h := address_roundtrip hash160 hash256 h160len h160bytes h256len h256bytes
    pubkeys M (by omega) (by omega) (by omega) hbound
  rw [hok] at h
  simp only [Except.bind] at h
  exact ⟨h, by omega, by omega, by omega⟩

/-- Witness for the amended C7 at two keys with threshold 1. -/
theorem address_success_bounds_witness :
    MultiSigPubkeyHash.thresholdAndTotalFromAddress hash256Fix
        (toBase58Check hash256Fix (hash160Fix (concatPubkeys [[2], [3]]) ++
          writeVarIntNum (1 : Int).toNat ++
          writeVarIntNum ([[2], [3]] : List (List Nat)).length) [152]) =
      Except.ok (hash160Fix (concatPubkeys [[2], [3]]), (1 : Int).toNat, 2) ∧
    1 ≤ (1 : Int).toNat ∧ (1 : Int).toNat ≤ 2 ∧ 2 ≤ 2 :=
  address_success_bounds hash160Fix hash256Fix
    (fun _ => by simp [hash160Fix])
    (fun _ b hb => by simp [hash160Fix] at hb; omega)
    (fun _ => by simp [hash256Fix])
    (fun _ b hb => by simp [hash256Fix] at hb; omega)
    [[2], [3]] 1 _ (by norm_num) rfl
